import Mathlib

/-!
Shallow embedding of the finance server's session-state cart
(`src/server/finance_server.py`) and proofs about the claims on it.

Modelling conventions:
* Python floats become `ℚ`; `round(x, 2)` becomes `round2` below.
* Python `dict` (insertion ordered) becomes an association list; inserting an
  existing key replaces the value in place, a new key is appended.
* The concurrent worker pools deliver results in completion order; the
  embedding processes items in submission order, and theorems quantify over
  the input list, so every completion schedule is an instance of the theorems.
* Network/LLM collaborators (yfinance, trafilatura, Groq) are oracles passed
  as function arguments.
-/

/-- One intraday history row: calendar day of the timestamp, the formatted
time-of-day label used by the report renderer, and the Open/Close prices. -/
structure Bar where
  day : ℕ
  hm : String
  openP : ℚ
  closeP : ℚ
  deriving Repr, DecidableEq, Inhabited

/-- Result of fetching one ticker, mirroring the dict shapes produced by
`fetch_single_ticker`: an Active record, a No-Data record, or an Error
record (any exception in the try block, including division by a zero
baseline). -/
inductive PriceData where
  | active (name : String) (price : ℚ) (change : ℚ) (last_updated : String)
      (history : List Bar)
  | noData
  | err (msg : String)
  deriving Repr, DecidableEq, Inhabited

/-- A stored news candidate: an entry of `SESSION_STATE["raw_news"]`. -/
structure NewsCandidate where
  id : ℤ
  ticker : String
  title : String
  url : String
  deriving Repr, DecidableEq, Inhabited

/-- A stored summary: an entry of `SESSION_STATE["summaries"]`.  Records
synthesized on a fetch or generation failure carry no title, hence
`Option String`. -/
structure SummaryRecord where
  id : ℤ
  ticker : String
  title : Option String
  summary : String
  deriving Repr, DecidableEq, Inhabited

/-- The global `SESSION_STATE`. -/
structure Session where
  prices : List (String × PriceData)
  raw_news : List NewsCandidate
  summaries : List SummaryRecord
  deriving Repr, DecidableEq, Inhabited

/-- `_reset_session`: clears all three collections. -/
def reset_session (_s : Session) : Session :=
  { prices := [], raw_news := [], summaries := [] }

/-- Models `json.dumps` on a list of integers. -/
def jsonIntList (l : List ℤ) : String :=
  "[" ++ String.intercalate ", " (l.map toString) ++ "]"

/-- Models `json.dumps` on one summary dict. -/
def jsonSummary (r : SummaryRecord) : String :=
  "\x7b\"id\": " ++ toString r.id ++ ", \"ticker\": \"" ++ r.ticker ++ "\""
    ++ (match r.title with
        | some t => ", \"title\": \"" ++ t ++ "\""
        | none => "")
    ++ ", \"summary\": \"" ++ r.summary ++ "\"\x7d"

/-- Models `json.dumps` on a list of summary dicts. -/
def jsonSummaries (l : List SummaryRecord) : String :=
  "[" ++ String.intercalate ", " (l.map jsonSummary) ++ "]"

/-- `remove_news_summaries` (Tool 4): with an empty id list it is a pure
read returning the stored ids; otherwise it keeps exactly the summaries
whose id is not in the list and returns the remaining ids. -/
def remove_news_summaries (s : Session) (indices : List ℤ) :
    Session × String :=
  if indices.isEmpty then
    (s, jsonIntList (s.summaries.map (fun item => item.id)))
  else
    let remaining := s.summaries.filter (fun item => decide (item.id ∉ indices))
    ({ s with summaries := remaining },
     jsonIntList (remaining.map (fun item => item.id)))

/-- A raw news item as delivered by the provider, i.e. the `data` dict of
`fetch_single_news` (after the `item.get('content', item)` unwrapping).
`clickThroughUrl` / `canonicalUrl`: outer `none` means the field is absent or
falsy, inner value is the nested dict's `url` entry.  `title`, `link`, `url`:
`none` means the key is absent (or `None`). -/
structure RawNewsItem where
  title : Option String
  clickThroughUrl : Option (Option String)
  canonicalUrl : Option (Option String)
  link : Option String
  url : Option String
  deriving Repr, DecidableEq, Inhabited

/-- Python truthiness of an optional string: present and non-empty. -/
def truthy (o : Option String) : Bool :=
  match o with
  | some s => !s.isEmpty
  | none => false

/-- The link-extraction priority chain of `fetch_single_news`:
click-through url, else canonical url, else `link or url`. -/
def extract_link (d : RawNewsItem) : Option String :=
  let l1 : Option String :=
    match d.clickThroughUrl with
    | some u => u
    | none => none
  let l2 : Option String :=
    if truthy l1 then l1 else
      match d.canonicalUrl with
      | some u => u
      | none => l1
  if truthy l2 then l2 else
    if truthy d.link then d.link else d.url

/-- A parsed candidate before deduplication (the dicts placed in
`valid_items`). -/
structure Item where
  ticker : String
  title : String
  url : String
  deriving Repr, DecidableEq, Inhabited

/-- `fetch_single_news`: parse up to `limit` provider items for one ticker,
keeping those with a truthy link and a title other than the `'No Title'`
default.  A provider exception is modelled as an empty provider list (the
code returns `[]` in both cases). -/
def fetch_single_news (limit : ℕ) (ticker : String)
    (news_list : List RawNewsItem) : List Item :=
  if news_list.isEmpty then [] else
    let safe_limit := min limit news_list.length
    (news_list.take safe_limit).filterMap (fun item =>
      let title := item.title.getD "No Title"
      let link := extract_link item
      if truthy link ∧ title ≠ "No Title" then
        some ⟨ticker, title, link.getD ""⟩
      else none)

/-- Python `str.strip` on the character list: drop leading and trailing
whitespace. -/
def stripChars (l : List Char) : List Char :=
  ((l.dropWhile Char.isWhitespace).reverse.dropWhile Char.isWhitespace).reverse

/-- Normalization used for deduplication: `strip().lower()`, modelled at the
character level (the kernel-reducible equivalent of `String.trim` followed
by `String.toLower`). -/
def normalized (s : String) : String := ⟨(stripChars s.data).map Char.toLower⟩

/-- The loop state of `search_news_options`: the two seen-sets, the accepted
candidates, the running id counter and the menu lines. -/
structure DedupState where
  seen_urls : List String
  seen_titles : List String
  raw_news : List NewsCandidate
  global_index : ℤ
  menu : List String
  deriving Repr, DecidableEq, Inhabited

/-- One iteration of the dedup loop of `search_news_options`: skip the item
when its normalized url or title was already seen; otherwise record the
non-empty normalized forms, append the candidate with the next id, and
append a menu line. -/
def dedup_step (st : DedupState) (item : Item) : DedupState :=
  let url_normalized := normalized item.url
  let title_normalized := normalized item.title
  if url_normalized ∈ st.seen_urls ∨ title_normalized ∈ st.seen_titles then st
  else
    { seen_urls :=
        if url_normalized = "" then st.seen_urls
        else url_normalized :: st.seen_urls,
      seen_titles :=
        if title_normalized = "" then st.seen_titles
        else title_normalized :: st.seen_titles,
      raw_news := st.raw_news ++
        [⟨st.global_index, item.ticker, item.title, item.url⟩],
      global_index := st.global_index + 1,
      menu := st.menu ++
        ["[" ++ toString st.global_index ++ "] " ++ item.ticker ++ " | "
          ++ item.title] }

/-- The stream of parsed items the dedup loop consumes: the per-ticker
results concatenated.  The as-completed schedule is covered by quantifying
theorems over the ticker list (a completed-order schedule is the theorem at
the correspondingly permuted ticker list). -/
def news_stream (tickers : List String) (limit : ℕ)
    (news : String → List RawNewsItem) : List Item :=
  (tickers.map (fun t => fetch_single_news limit t (news t))).flatten

/-- `search_news_options` (Tool 2): early-return on an empty ticker list
(before clearing anything); otherwise clear `raw_news`, run the dedup loop
over the item stream, store the surviving candidates and return the menu. -/
def search_news_options (s : Session) (tickers : List String) (limit : ℕ)
    (news : String → List RawNewsItem) : Session × String :=
  if tickers.isEmpty then (s, "No tickers provided.")
  else
    let st := (news_stream tickers limit news).foldl dedup_step
      ⟨[], [], [], 0, []⟩
    ({ s with raw_news := st.raw_news },
     if st.menu.isEmpty then "No news found."
     else "Available News Options (Select by ID):\n"
       ++ String.intercalate "\n" st.menu)

/-- Per-ticker market data as delivered by the provider: the 1-day and the
5-day hourly history, the `previousClose` / name metadata (absent when the
`stock.info` call fails), and an optional exception raised by the history
call itself. -/
structure TickerInfo where
  hist1d : List Bar
  hist5d : List Bar
  prevClose : Option ℚ
  shortName : Option String
  longName : Option String
  fails : Option String
  deriving Repr, DecidableEq, Inhabited

/-- Python `round(x, 2)`: scale, round to an integer, scale back.  (The
source rounds binary floats with banker's rounding; the embedding uses exact
rationals with the standard rounding, which is the only idealization.) -/
def round2 (x : ℚ) : ℚ := (round (x * 100) : ℤ) / 100

/-- The history actually used: 1-day data, falling back to the 5-day window
when the 1-day frame is empty. -/
def chosenHist (ti : TickerInfo) : List Bar :=
  if ti.hist1d.isEmpty then ti.hist5d else ti.hist1d

/-- `fetch_single_ticker`: compute current price (last close), the baseline
(truthy `previousClose`, else the first open of the most recent day present
in the series, else — dead branch — the last row's open), and the rounded
percent change.  A zero baseline raises `ZeroDivisionError` in the source,
caught by the surrounding `except` into an Error record. -/
def fetch_single_ticker (ticker : String) (ti : TickerInfo) (now : String) :
    PriceData :=
  match ti.fails with
  | some e => .err e
  | none =>
    let hist := chosenHist ti
    if hist.isEmpty then .noData
    else
      let lastBar := hist.getLastD default
      let current_price := lastBar.closeP
      let day_data := hist.filter (fun b => b.day = lastBar.day)
      let open_price := (day_data.headD lastBar).openP
      let base_price :=
        match ti.prevClose with
        | some p => if p = 0 then open_price else p
        | none => open_price
      if base_price = 0 then .err "float division by zero"
      else
        let change_percent := (current_price - base_price) / base_price * 100
        let name := ti.shortName.getD (ti.longName.getD ticker)
        .active name (round2 current_price) (round2 change_percent) now hist

/-- Insertion into the (insertion-ordered) prices dict: overwrite in place
when the key exists, append otherwise. -/
def dictInsert (d : List (String × PriceData)) (k : String) (v : PriceData) :
    List (String × PriceData) :=
  if d.any (fun p => p.1 = k) then
    d.map (fun p => if p.1 = k then (k, v) else p)
  else d ++ [(k, v)]

/-- The quick-view line appended to `results_summary` for one ticker. -/
def quickLine (ticker : String) (data : PriceData) : String :=
  match data with
  | .active _ _ change _ _ => ticker ++ ": " ++ toString change ++ "%"
  | .noData => ticker ++ ": No Data"
  | .err _ => ticker ++ ": Error"

/-- One iteration of the result-collection loop of
`fetch_and_store_prices`: store the fetched record in the prices dict and
append a quick-view line. -/
def priceStep (info : String → TickerInfo) (now : String)
    (acc : List (String × PriceData) × List String) (t : String) :
    List (String × PriceData) × List String :=
  let data := fetch_single_ticker t (info t) now
  (dictInsert acc.1 t data, acc.2 ++ [quickLine t data])

/-- `fetch_and_store_prices` (Tool 1): reset the session first (even when
the ticker list turns out to be empty), then fetch every ticker and store
the records keyed by symbol. -/
def fetch_and_store_prices (s : Session) (tickers : List String)
    (info : String → TickerInfo) (now : String) : Session × String :=
  let s := reset_session s
  if tickers.isEmpty then (s, "No tickers provided.")
  else
    let r := tickers.foldl (priceStep info now) ([], [])
    ({ s with prices := r.1 },
     "Prices stored in server. Quick View: " ++ String.intercalate ", " r.2)

/-- The trend samples of the Price Trend sub-line: `HH:MM:$price`.  (The
numeric rendering of the close price models Python's `f"{p:.2f}"`; no claim
depends on the digits, only on the line structure.) -/
def trend_points (hist : List Bar) : List String :=
  hist.map (fun b => b.hm ++ ":$" ++ toString b.closeP)

/-- The Market Data block contributed by one stored price record: the main
line, plus an indented Price Trend line for Active records with a non-empty
history. -/
def price_line (ticker : String) (data : PriceData) : String :=
  match data with
  | .active name price change _ hist =>
    "- **" ++ ticker ++ "**: " ++ name ++ " $" ++ toString price
      ++ " (" ++ toString change ++ "%)\n"
      ++ (if hist.isEmpty then ""
          else "  - *Price Trend*: "
            ++ String.intercalate " → " (trend_points hist) ++ "\n")
  | .noData => "- **" ++ ticker ++ "**: No Data\n"
  | .err _ => "- **" ++ ticker ++ "**: Error\n"

/-- The Key Developments section body. -/
def news_section (summaries : List SummaryRecord) : String :=
  (if summaries.isEmpty then "(No news selected)\n" else "")
    ++ String.join (summaries.map (fun item =>
        "\n### [" ++ item.ticker ++ "] " ++ item.title.getD "News" ++ "\n"
          ++ item.summary ++ "\n"
          ++ "*(Ref ID: " ++ toString item.id ++ ")*\n"))

/-- `export_final_report` (Tool 5): a pure function of the session (the
source's `sleep(50)` has no effect on the state or the output). -/
def export_final_report (s : Session) : String :=
  "# Daily Market Pulse\n\n" ++ "## Market Data\n"
    ++ String.join (s.prices.map (fun p => price_line p.1 p.2))
    ++ "\n## Key Developments\n" ++ news_section s.summaries

/-- Keys of the prices dict after one insertion: unchanged when the key was
present (overwrite in place), appended otherwise. -/
theorem dictInsert_keys (d : List (String × PriceData)) (k : String)
    (v : PriceData) :
    (dictInsert d k v).map Prod.fst
      = if k ∈ d.map Prod.fst then d.map Prod.fst
        else d.map Prod.fst ++ [k] := by
  unfold dictInsert
  by_cases h : d.any (fun p => p.1 = k)
  · have h' : ∃ x, (k, x) ∈ d := by simpa using h
    have hk : k ∈ d.map Prod.fst := by
      rcases h' with ⟨x, hx⟩
      exact List.mem_map.2 ⟨(k, x), hx, rfl⟩
    rw [if_pos h, if_pos hk, List.map_map]
    apply List.map_congr_left
    intro p _
    by_cases hpk : p.1 = k <;> simp [hpk]
  · have h' : ¬ ∃ x, (k, x) ∈ d := by simpa using h
    have hk : k ∉ d.map Prod.fst := by
      intro hmem
      rcases List.mem_map.1 hmem with ⟨p, hp, he⟩
      refine h' ⟨p.2, ?_⟩
      rw [← he]
      simpa using hp
    rw [if_neg h, if_neg hk]
    simp

/-- Every entry of the prices dict after one insertion either was already
present or is the one just written. -/
theorem dictInsert_mem (d : List (String × PriceData)) (k : String)
    (v : PriceData) :
    ∀ pr ∈ dictInsert d k v, pr ∈ d ∨ pr = (k, v) := by
  intro pr hpr
  unfold dictInsert at hpr
  split at hpr
  · rcases List.mem_map.1 hpr with ⟨q, hq, he⟩
    by_cases hqk : q.1 = k
    · right
      rw [← he]
      simp [hqk]
    · left
      rw [← he]
      simpa [hqk] using hq
  · rcases List.mem_append.1 hpr with h | h
    · exact Or.inl h
    · exact Or.inr (by simpa using h)

/-- Along the price-fetch fold, every stored entry either predates the fold
or is exactly the fetched record for its own key. -/
theorem fetch_fold_values (info : String → TickerInfo) (now : String)
    (ts : List String) :
    ∀ d : List (String × PriceData), ∀ lines : List String,
    ∀ pr ∈ (ts.foldl (priceStep info now) (d, lines)).1,
      pr ∈ d ∨ pr.2 = fetch_single_ticker pr.1 (info pr.1) now := by
  induction ts with
  | nil =>
    intro d lines pr hpr
    exact Or.inl hpr
  | cons t rest ih =>
    intro d lines pr hpr
    rw [List.foldl_cons] at hpr
    rcases ih _ _ pr hpr with h | h
    · rcases dictInsert_mem d t (fetch_single_ticker t (info t) now) pr h with
        h' | h'
      · exact Or.inl h'
      · right
        rw [h']
    · exact Or.inr h

/-- Along the price-fetch fold, the key list stays duplicate-free and ends
up containing exactly the prior keys and the fetched tickers. -/
theorem fetch_fold_keys (info : String → TickerInfo) (now : String)
    (ts : List String) :
    ∀ d : List (String × PriceData), ∀ lines : List String,
      (d.map Prod.fst).Nodup →
      ((((ts.foldl (priceStep info now) (d, lines)).1).map Prod.fst).Nodup
      ∧ ∀ t, t ∈ ((ts.foldl (priceStep info now) (d, lines)).1).map Prod.fst
          ↔ t ∈ d.map Prod.fst ∨ t ∈ ts) := by
  induction ts with
  | nil =>
    intro d lines hnd
    exact ⟨hnd, fun t => by simp⟩
  | cons t rest ih =>
    intro d lines hnd
    rw [List.foldl_cons]
    simp only [priceStep]
    have hkeys := dictInsert_keys d t (fetch_single_ticker t (info t) now)
    by_cases hmem : t ∈ d.map Prod.fst
    · rw [if_pos hmem] at hkeys
      have hnd' : ((dictInsert d t
          (fetch_single_ticker t (info t) now)).map Prod.fst).Nodup := by
        rw [hkeys]; exact hnd
      obtain ⟨h1, h2⟩ := ih _ (lines ++ [quickLine t
        (fetch_single_ticker t (info t) now)]) hnd'
      refine ⟨h1, fun u => ?_⟩
      rw [h2 u, hkeys]
      constructor
      · rintro (h | h)
        · exact Or.inl h
        · exact Or.inr (List.mem_cons_of_mem _ h)
      · rintro (h | h)
        · exact Or.inl h
        · rcases List.mem_cons.1 h with h | h
          · exact Or.inl (h ▸ hmem)
          · exact Or.inr h
    · rw [if_neg hmem] at hkeys
      have hnd' : ((dictInsert d t
          (fetch_single_ticker t (info t) now)).map Prod.fst).Nodup := by
        rw [hkeys]
        simp [List.nodup_append, hnd, hmem]
      obtain ⟨h1, h2⟩ := ih _ (lines ++ [quickLine t
        (fetch_single_ticker t (info t) now)]) hnd'
      refine ⟨h1, fun u => ?_⟩
      rw [h2 u, hkeys]
      constructor
      · rintro (h | h)
        · rcases List.mem_append.1 h with h | h
          · exact Or.inl h
          · exact Or.inr (List.mem_cons.2 (Or.inl (by simpa using h)))
        · exact Or.inr (List.mem_cons_of_mem _ h)
      · rintro (h | h)
        · exact Or.inl (List.mem_append.2 (Or.inl h))
        · rcases List.mem_cons.1 h with h | h
          · exact Or.inl (List.mem_append.2 (Or.inr (by simp [h])))
          · exact Or.inr h

/-- Every Active record produced by a single-ticker fetch carries a change
rounded to two decimals. -/
theorem fetch_active_change_rounded (ticker : String) (ti : TickerInfo)
    (now name lu : String) (price change : ℚ) (hist : List Bar)
    (h : fetch_single_ticker ticker ti now
        = .active name price change lu hist) :
    ∃ k : ℤ, change = (k : ℚ) / 100 := by
  cases hf : ti.fails with
  | some e =>
    rw [fetch_single_ticker, hf] at h
    exact absurd h (by simp)
  | none =>
    simp only [fetch_single_ticker, hf] at h
    split at h
    · exact absurd h (by simp)
    · split at h
      · exact absurd h (by simp)
      · simp only [PriceData.active.injEq] at h
        exact ⟨_, h.2.2.1.symm⟩

/-- C9: after a price fetch for tickers T, the session holds exactly one
price record per distinct element of T (no duplicates, no omissions:
repeated tickers collapse onto one dict key), every Active record's percent
change is a 2-decimal value, and the rendered report starts with the
`# Daily Market Pulse` header and emits exactly one Market Data block per
stored price record. -/
theorem fetchPrices_report_one_line_per_ticker (s₀ : Session)
    (tickers : List String) (info : String → TickerInfo) (now : String) :
    (((fetch_and_store_prices s₀ tickers info now).1.prices.map
        Prod.fst).Nodup)
    ∧ (∀ t, t ∈ (fetch_and_store_prices s₀ tickers info now).1.prices.map
          Prod.fst ↔ t ∈ tickers)
    ∧ (∀ pr ∈ (fetch_and_store_prices s₀ tickers info now).1.prices,
        ∀ name price change lu hist,
          pr.2 = PriceData.active name price change lu hist →
          ∃ k : ℤ, change = (k : ℚ) / 100)
    ∧ (∃ rest, export_final_report
          (fetch_and_store_prices s₀ tickers info now).1
        = "# Daily Market Pulse" ++ rest)
    ∧ export_final_report (fetch_and_store_prices s₀ tickers info now).1
        = "# Daily Market Pulse\n\n" ++ "## Market Data\n"
          ++ String.join
              ((fetch_and_store_prices s₀ tickers info now).1.prices.map
                (fun p => price_line p.1 p.2))
          ++ "\n## Key Developments\n"
          ++ news_section
              (fetch_and_store_prices s₀ tickers info now).1.summaries := by
  have hhdr : ∀ s : Session, ∃ rest,
      export_final_report s = "# Daily Market Pulse" ++ rest := by
    intro s
    refine ⟨"\n\n" ++ ("## Market Data\n"
      ++ String.join (s.prices.map (fun p => price_line p.1 p.2))
      ++ ("\n## Key Developments\n" ++ news_section s.summaries)), ?_⟩
    rw [export_final_report]
    rw [← String.append_assoc, ← String.append_assoc, ← String.append_assoc,
      ← String.append_assoc]
    rfl
  by_cases hemp : tickers.isEmpty
  · have htick : tickers = [] := by simpa [List.isEmpty_iff] using hemp
    subst htick
    refine ⟨by simp [fetch_and_store_prices, reset_session], ?_, ?_, ?_, ?_⟩
    · intro t
      simp [fetch_and_store_prices, reset_session]
    · intro pr hpr
      simp [fetch_and_store_prices, reset_session] at hpr
    · exact hhdr _
    · rw [export_final_report]
  · have hprices : (fetch_and_store_prices s₀ tickers info now).1.prices
        = (tickers.foldl (priceStep info now) ([], [])).1 := by
      simp [fetch_and_store_prices, reset_session, hemp]
    obtain ⟨hnd, hiff⟩ := fetch_fold_keys info now tickers [] [] (by simp)
    refine ⟨?_, ?_, ?_, hhdr _, by rw [export_final_report]⟩
    · rw [hprices]
      exact hnd
    · intro t
      rw [hprices, hiff t]
      simp
    · intro pr hpr name price change lu hist hactive
      rw [hprices] at hpr
      rcases fetch_fold_values info now tickers [] [] pr hpr with h | h
      · exact absurd h (by simp)
      · exact fetch_active_change_rounded pr.1 (info pr.1) now name lu price
          change hist (by rw [← h]; exact hactive)

/-- Index validation of `summarize_selected_indices`: an index selects the
candidate at that position when `0 <= idx < len(raw_news)`, and is silently
dropped otherwise. -/
def pick (l : List NewsCandidate) (idx : ℤ) : Option NewsCandidate :=
  if 0 ≤ idx ∧ idx < (l.length : ℤ) then l.get? idx.toNat else none

/-- The indices of a request that are currently valid. -/
def validIndices (l : List NewsCandidate) (indices : List ℤ) : List ℤ :=
  indices.filter (fun idx => decide (0 ≤ idx ∧ idx < (l.length : ℤ)))

/-- The fixed system instruction handed to the summarization model. -/
def system_prompt : String :=
  "You are a high-efficiency financial news extractor. "
    ++ "Compress the article content into strict format:\n"
    ++ "### 1. EXECUTIVE SUMMARY\n"
    ++ "### 2. HARD DATA (Numbers/Dates)\n"
    ++ "### 3. KEY QUOTES\n"
    ++ "Constraints: Under 400 words. Be telegraphic."

/-- `process_item`: fetch the article text (the Text Extraction Adapter,
an oracle `fetchText`), and on success summarize it through the language
model (oracle `llm`, taking the system and user prompts).  Failure at
either stage synthesizes a title-less record recording the reason. -/
def process_item (fetchText : String → String)
    (llm : String → String → Except String String) (focus : String)
    (item : NewsCandidate) : SummaryRecord :=
  let raw_text := fetchText item.url
  if raw_text.isEmpty ∨ raw_text.startsWith "Error" then
    { id := item.id, ticker := item.ticker, title := none,
      summary := "Failed to fetch content: " ++ raw_text }
  else
    let user_prompt := "User INSTRUCTION: " ++ focus ++ "\n\nCONTENT:\n"
      ++ (raw_text.take 12000)
    match llm system_prompt user_prompt with
    | .ok summary =>
      { id := item.id, ticker := item.ticker, title := some item.title,
        summary := summary }
    | .error e =>
      { id := item.id, ticker := item.ticker, title := none,
        summary := "Error: " ++ e }

/-- `summarize_selected_indices` (Tool 3): validate the requested indices,
fail with `'Invalid indices provided.'` when none is valid, otherwise
process every selected candidate and append the results to the summary
collection. -/
def summarize_selected_indices (s : Session) (indices : List ℤ)
    (focus : String) (fetchText : String → String)
    (llm : String → String → Except String String) : Session × String :=
  let selected_items := indices.filterMap (pick s.raw_news)
  if selected_items.isEmpty then (s, "Invalid indices provided.")
  else
    let new_summaries := selected_items.map (process_item fetchText llm focus)
    ({ s with summaries := s.summaries ++ new_summaries },
     jsonSummaries new_summaries)

/-- The first open price of the most recent trading day present in the
series: the open of the first row sharing the last row's calendar day. -/
def firstOpenLastDay (hist : List Bar) : ℚ :=
  ((hist.filter (fun b => b.day = (hist.getLastD default).day)).headD
      (hist.getLastD default)).openP

/-- C5: when a ticker's fetch succeeds with a non-empty history, the
recorded percent change is (current − baseline) / baseline × 100 rounded to
2 decimals, where current is the last close and the baseline is the
previous-close metadata when it is available (present and non-zero — a
present zero is falsy in the source and falls through, and would anyway
make the fetch fail by zero division), else the first open price of the
most recent trading day present in the series.  (The source's further
fallback is unreachable: a non-empty series always contains its own most
recent day.) -/
theorem fetchPrices_percent_change_formula (ticker : String)
    (ti : TickerInfo) (now name lu : String) (price change : ℚ)
    (hist : List Bar)
    (h : fetch_single_ticker ticker ti now
        = .active name price change lu hist) :
    hist = chosenHist ti
    ∧ hist ≠ []
    ∧ ∃ base : ℚ, base ≠ 0
      ∧ change = round2 (((hist.getLastD default).closeP - base) / base * 100)
      ∧ ((∃ p, ti.prevClose = some p ∧ p ≠ 0 ∧ base = p)
         ∨ ((ti.prevClose = none ∨ ti.prevClose = some 0)
            ∧ base = firstOpenLastDay hist)) := by
  cases hf : ti.fails with
  | some e =>
    rw [fetch_single_ticker, hf] at h
    exact absurd h (by simp)
  | none =>
    simp only [fetch_single_ticker, hf] at h
    split at h
    · exact absurd h (by simp)
    · rename_i hemp
      split at h
      · exact absurd h (by simp)
      · rename_i hbz
        simp only [PriceData.active.injEq] at h
        obtain ⟨h1, h2, h3, h4, h5⟩ := h
        subst h5
        refine ⟨rfl, by simpa [List.isEmpty_iff] using hemp, ?_⟩
        cases hpc : ti.prevClose with
        | none =>
          rw [hpc] at h3 hbz
          dsimp only at h3 hbz
          exact ⟨firstOpenLastDay (chosenHist ti), hbz, h3.symm,
            Or.inr ⟨Or.inl rfl, rfl⟩⟩
        | some p =>
          rw [hpc] at h3 hbz
          dsimp only at h3 hbz
          by_cases hp : p = 0
          · rw [if_pos hp] at h3 hbz
            exact ⟨firstOpenLastDay (chosenHist ti), hbz, h3.symm,
              Or.inr ⟨Or.inr (by rw [hp]), rfl⟩⟩
          · rw [if_neg hp] at h3 hbz
            exact ⟨p, hbz, h3.symm, Or.inl ⟨p, rfl, hp, rfl⟩⟩

/-- The concrete market data used by the C5 witness. -/
def tiW : TickerInfo :=
  ⟨[⟨0, "10:00", 100, 110⟩], [], some 105, none, none, none⟩

/-- Witness for C5 at a concrete ticker fetch. -/
theorem fetchPrices_percent_change_formula_witness :
    chosenHist tiW = chosenHist tiW
    ∧ chosenHist tiW ≠ []
    ∧ ∃ base : ℚ, base ≠ 0
      ∧ round2 (((110 : ℚ) - 105) / 105 * 100) = round2
          ((((chosenHist tiW).getLastD default).closeP - base) / base * 100)
      ∧ ((∃ p, tiW.prevClose = some p ∧ p ≠ 0 ∧ base = p)
         ∨ ((tiW.prevClose = none ∨ tiW.prevClose = some 0)
            ∧ base = firstOpenLastDay (chosenHist tiW))) :=
  fetchPrices_percent_change_formula "T" tiW "n" "T" "n"
    (round2 110) (round2 (((110 : ℚ) - 105) / 105 * 100))
    (chosenHist tiW) rfl

/-- Normalized url of a stored candidate. -/
def normUrl (c : NewsCandidate) : String := normalized c.url

/-- Normalized title of a stored candidate. -/
def normTitle (c : NewsCandidate) : String := normalized c.title

/-- Pairwise deduplication guarantee actually enforced by the loop: two
distinct surviving candidates never share a NON-EMPTY normalized url, nor a
NON-EMPTY normalized title (empty normalized forms are never recorded in the
seen-sets, so they never cause a drop). -/
def DedupOk (l : List NewsCandidate) : Prop :=
  l.Pairwise (fun a b =>
    (normUrl a = normUrl b → normUrl b = "") ∧
    (normTitle a = normTitle b → normTitle b = ""))

/-- Loop invariant of the dedup fold: the accepted list is deduplicated in
the above sense, every accepted non-empty normalized url/title is in the
corresponding seen-set, there is one menu line per accepted candidate, the
id counter equals the number accepted, and the accepted ids are exactly the
positions 0,1,2,…. -/
def DedupInv (st : DedupState) : Prop :=
  DedupOk st.raw_news
  ∧ (∀ c ∈ st.raw_news, normUrl c ≠ "" → normUrl c ∈ st.seen_urls)
  ∧ (∀ c ∈ st.raw_news, normTitle c ≠ "" → normTitle c ∈ st.seen_titles)
  ∧ st.menu.length = st.raw_news.length
  ∧ st.global_index = (st.raw_news.length : ℤ)
  ∧ st.raw_news.map (fun c => c.id)
      = (List.range st.raw_news.length).map Int.ofNat

theorem dedup_step_inv (st : DedupState) (it : Item) (h : DedupInv st) :
    DedupInv (dedup_step st it) := by
  obtain ⟨hok, hurl, htit, hmenu, hgi, hids⟩ := h
  by_cases hseen :
      normalized it.url ∈ st.seen_urls ∨ normalized it.title ∈ st.seen_titles
  · unfold dedup_step
    rw [if_pos hseen]
    exact ⟨hok, hurl, htit, hmenu, hgi, hids⟩
  · push_neg at hseen
    obtain ⟨hu, ht⟩ := hseen
    unfold dedup_step
    rw [if_neg (by push_neg; exact ⟨hu, ht⟩)]
    refine ⟨?_, ?_, ?_, ?_, ?_, ?_⟩
    · unfold DedupOk
      dsimp only
      rw [List.pairwise_append]
      refine ⟨hok, List.pairwise_singleton _ _, ?_⟩
      intro a ha b hb
      simp only [List.mem_singleton] at hb
      subst hb
      constructor
      · intro heq
        by_contra hne
        have ha' : normUrl a ≠ "" := by rw [heq]; exact hne
        have hmem := hurl a ha ha'
        rw [heq] at hmem
        exact hu hmem
      · intro heq
        by_contra hne
        have ha' : normTitle a ≠ "" := by rw [heq]; exact hne
        have hmem := htit a ha ha'
        rw [heq] at hmem
        exact ht hmem
    · dsimp only
      intro c hc hcne
      rcases List.mem_append.1 hc with hc | hc
      · have hin := hurl c hc hcne
        split
        · exact hin
        · exact List.mem_cons_of_mem _ hin
      · simp only [List.mem_singleton] at hc
        subst hc
        rw [if_neg (by exact hcne)]
        exact List.mem_cons_self _ _
    · dsimp only
      intro c hc hcne
      rcases List.mem_append.1 hc with hc | hc
      · have hin := htit c hc hcne
        split
        · exact hin
        · exact List.mem_cons_of_mem _ hin
      · simp only [List.mem_singleton] at hc
        subst hc
        rw [if_neg (by exact hcne)]
        exact List.mem_cons_self _ _
    · dsimp only
      simp [hmenu]
    · dsimp only
      simp [hgi]
    · dsimp only
      simp only [List.length_append, List.length_singleton, List.range_succ,
        List.map_append, hids, hgi]
      simp

theorem dedup_fold_inv (items : List Item) (st : DedupState)
    (h : DedupInv st) : DedupInv (items.foldl dedup_step st) := by
  induction items generalizing st with
  | nil => exact h
  | cons a l ih => exact ih (dedup_step st a) (dedup_step_inv st a h)

theorem dedup_init_inv : DedupInv ⟨[], [], [], 0, []⟩ := by
  refine ⟨List.Pairwise.nil, ?_, ?_, rfl, rfl, rfl⟩ <;> simp

/-- After a discovery call on a non-empty ticker list, the stored candidate
list is exactly the result of the dedup fold. -/
theorem search_raw_news_eq (s : Session) (tickers : List String) (limit : ℕ)
    (news : String → List RawNewsItem) (h : tickers ≠ []) :
    (search_news_options s tickers limit news).1.raw_news
      = ((news_stream tickers limit news).foldl dedup_step
          ⟨[], [], [], 0, []⟩).raw_news := by
  have hne : ¬ tickers.isEmpty := by simpa [List.isEmpty_iff] using h
  unfold search_news_options
  rw [if_neg (by simpa using hne)]

/-- C1, amended: no two surviving candidates share the same NON-EMPTY
normalized url, and no two share the same NON-EMPTY normalized title
(regardless of ticker); the menu has exactly one entry per surviving
candidate.  (Empty normalized forms are never added to the seen-sets, so
candidates whose title or url normalizes to the empty string bypass that
half of the deduplication — see the counterexample.) -/
theorem discoverNews_no_duplicate_nonempty_norms (s : Session)
    (tickers : List String) (limit : ℕ) (news : String → List RawNewsItem)
    (h : tickers ≠ []) :
    DedupOk (search_news_options s tickers limit news).1.raw_news
    ∧ ((news_stream tickers limit news).foldl dedup_step
        ⟨[], [], [], 0, []⟩).menu.length
      = (search_news_options s tickers limit news).1.raw_news.length := by
  have hinv := dedup_fold_inv (news_stream tickers limit news) _ dedup_init_inv
  rw [search_raw_news_eq s tickers limit news h]
  exact ⟨hinv.1, hinv.2.2.2.1⟩

/-- Provider output on which the claim as stated fails: two items whose
titles are distinct whitespace strings, both normalizing to the empty
string. -/
def newsCex : String → List RawNewsItem := fun _ =>
  [⟨some " ", none, none, some "http://a", none⟩,
   ⟨some "  ", none, none, some "http://b", none⟩]

/-- C1 counterexample: a discovery call can accept two candidates whose
normalized titles are equal (both empty), because an empty normalized title
is never recorded in the seen-set; the literal claim "no two entries have
the same normalized title" is false. -/
theorem discoverNews_duplicate_empty_norm_title_counterexample :
    (search_news_options ⟨[], [], []⟩ ["A"] 4 newsCex).1.raw_news.length = 2
    ∧ ((search_news_options ⟨[], [], []⟩ ["A"] 4 newsCex).1.raw_news.map
        (fun c => normTitle c)) = ["", ""] := by
  constructor <;> rfl

/-- Witness for C1 at a concrete discovery call. -/
theorem discoverNews_no_duplicate_nonempty_norms_witness :
    (["A"] : List String) ≠ []
    ∧ DedupOk (search_news_options ⟨[], [], []⟩ ["A"] 4
        (fun _ => [⟨some "T1", none, none, some "http://a", none⟩])).1.raw_news :=
  ⟨by decide,
   (discoverNews_no_duplicate_nonempty_norms ⟨[], [], []⟩ ["A"] 4
      (fun _ => [⟨some "T1", none, none, some "http://a", none⟩])
      (by decide)).1⟩

/-- From the id-list-equals-position-list form, read off each candidate's
id pointwise. -/
theorem ids_pointwise (l : List NewsCandidate)
    (hmap : l.map (fun c => c.id) = (List.range l.length).map Int.ofNat)
    (i : ℕ) (hi : i < l.length) : (l.get ⟨i, hi⟩).id = (i : ℤ) := by
  have h2 : (l.map (fun c => c.id)).get? i
      = ((List.range l.length).map Int.ofNat).get? i := by rw [hmap]
  rw [List.get?_map, List.get?_map, List.get?_eq_get hi,
    List.get?_range (by simpa using hi)] at h2
  simpa using h2

/-- C2: after a discovery call on a non-empty ticker list that accepts N
candidates, the stored ids are exactly 0,1,…,N−1 in acceptance order: the
id list equals the position list, and each stored candidate's id equals its
index in the session's candidate list. -/
theorem discoverNews_ids_dense (s : Session) (tickers : List String)
    (limit : ℕ) (news : String → List RawNewsItem) (h : tickers ≠ []) :
    ((search_news_options s tickers limit news).1.raw_news.map (fun c => c.id))
      = (List.range
          (search_news_options s tickers limit news).1.raw_news.length).map
          Int.ofNat
    ∧ ∀ i : ℕ,
        ∀ hi : i < (search_news_options s tickers limit news).1.raw_news.length,
        ((search_news_options s tickers limit news).1.raw_news.get
            ⟨i, hi⟩).id = (i : ℤ) := by
  have hinv := dedup_fold_inv (news_stream tickers limit news) _ dedup_init_inv
  rw [search_raw_news_eq s tickers limit news h]
  have hmap := hinv.2.2.2.2.2
  exact ⟨hmap, ids_pointwise _ hmap⟩

/-- Witness for C2 at a concrete discovery call. -/
theorem discoverNews_ids_dense_witness :
    (["A"] : List String) ≠ []
    ∧ ((search_news_options ⟨[], [], []⟩ ["A"] 4
        (fun _ => [⟨some "T1", none, none, some "http://a", none⟩,
                   ⟨some "T2", none, none, some "http://b", none⟩])).1.raw_news.map
          (fun c => c.id))
      = (List.range
          (search_news_options ⟨[], [], []⟩ ["A"] 4
            (fun _ => [⟨some "T1", none, none, some "http://a", none⟩,
                       ⟨some "T2", none, none, some "http://b", none⟩])).1.raw_news.length).map
          Int.ofNat :=
  ⟨by decide,
   (discoverNews_ids_dense ⟨[], [], []⟩ ["A"] 4
      (fun _ => [⟨some "T1", none, none, some "http://a", none⟩,
                 ⟨some "T2", none, none, some "http://b", none⟩])
      (by decide)).1⟩

/-- `process_item` copies the id of its source candidate. -/
theorem process_item_id (ft : String → String)
    (llm : String → String → Except String String) (focus : String)
    (item : NewsCandidate) :
    (process_item ft llm focus item).id = item.id := by
  unfold process_item
  dsimp only
  split
  · rfl
  · split <;> rfl

/-- The selected candidates are the valid indices' candidates, in request
order. -/
theorem selected_eq_valid_map (l : List NewsCandidate) (indices : List ℤ) :
    indices.filterMap (pick l)
      = (validIndices l indices).map
          (fun idx => (l.get? idx.toNat).getD default) := by
  induction indices with
  | nil => rfl
  | cons i rest ih =>
    rw [List.filterMap_cons]
    by_cases hi : 0 ≤ i ∧ i < (l.length : ℤ)
    · have hlt : i.toNat < l.length := by omega
      have hget : l.get? i.toNat = some (l.get ⟨i.toNat, hlt⟩) :=
        List.get?_eq_get hlt
      simp [validIndices, pick, hi, hget, ih]
    · simp [validIndices, pick, hi, ih]

/-- C7: a price-fetch call wipes all three collections as its first action,
so its result is independent of the prior session state and its news and
summary collections come out empty (even on the empty-ticker early return);
and it is the only operation that does so: news discovery preserves prices
and summaries, curation preserves prices and candidates, and summary
removal preserves prices and candidates. -/
theorem fetchPrices_resets_session (s s' : Session) (tickers : List String)
    (info : String → TickerInfo) (now : String) (limit : ℕ)
    (news : String → List RawNewsItem) (indices : List ℤ) (focus : String)
    (ft : String → String) (llm : String → String → Except String String) :
    fetch_and_store_prices s tickers info now
      = fetch_and_store_prices s' tickers info now
    ∧ (fetch_and_store_prices s tickers info now).1.raw_news = []
    ∧ (fetch_and_store_prices s tickers info now).1.summaries = []
    ∧ (search_news_options s tickers limit news).1.prices = s.prices
    ∧ (search_news_options s tickers limit news).1.summaries = s.summaries
    ∧ (summarize_selected_indices s indices focus ft llm).1.prices = s.prices
    ∧ (summarize_selected_indices s indices focus ft llm).1.raw_news
        = s.raw_news
    ∧ (remove_news_summaries s indices).1.prices = s.prices
    ∧ (remove_news_summaries s indices).1.raw_news = s.raw_news := by
  refine ⟨rfl, ?_, ?_, ?_, ?_, ?_, ?_, ?_, ?_⟩
  · by_cases h : tickers.isEmpty <;>
      simp [fetch_and_store_prices, reset_session, h]
  · by_cases h : tickers.isEmpty <;>
      simp [fetch_and_store_prices, reset_session, h]
  · by_cases h : tickers.isEmpty <;> simp [search_news_options, h]
  · by_cases h : tickers.isEmpty <;> simp [search_news_options, h]
  · by_cases h : (indices.filterMap (pick s.raw_news)).isEmpty <;>
      simp [summarize_selected_indices, h]
  · by_cases h : (indices.filterMap (pick s.raw_news)).isEmpty <;>
      simp [summarize_selected_indices, h]
  · by_cases h : indices.isEmpty <;> simp [remove_news_summaries, h]
  · by_cases h : indices.isEmpty <;> simp [remove_news_summaries, h]

/-- C6: curation processes exactly the requested indices that are currently
valid, in request order (out-of-range indices are silently dropped); when
none is valid it fails with the explicit no-valid-ids string and leaves the
session untouched; otherwise one summary per valid requested index is
produced and returned. -/
theorem summarizeSelected_valid_ids_only (s : Session) (indices : List ℤ)
    (focus : String) (ft : String → String)
    (llm : String → String → Except String String) :
    (validIndices s.raw_news indices = [] →
      summarize_selected_indices s indices focus ft llm
        = (s, "Invalid indices provided."))
    ∧ (validIndices s.raw_news indices ≠ [] →
      ∃ news : List SummaryRecord,
        (summarize_selected_indices s indices focus ft llm).1.summaries
            = s.summaries ++ news
        ∧ news.length = (validIndices s.raw_news indices).length
        ∧ news.map (fun r => r.id)
            = (validIndices s.raw_news indices).map
                (fun idx => ((s.raw_news.get? idx.toNat).getD default).id)
        ∧ (summarize_selected_indices s indices focus ft llm).2
            = jsonSummaries news) := by
  constructor
  · intro hvalid
    have hsel : indices.filterMap (pick s.raw_news) = [] := by
      rw [selected_eq_valid_map, hvalid]
      rfl
    simp [summarize_selected_indices, hsel]
  · intro hvalid
    have hsel : ¬ (indices.filterMap (pick s.raw_news)).isEmpty := by
      rw [selected_eq_valid_map]
      simpa [List.isEmpty_iff] using hvalid
    refine ⟨(indices.filterMap (pick s.raw_news)).map
      (process_item ft llm focus), ?_, ?_, ?_, ?_⟩
    · simp [summarize_selected_indices, hsel]
    · rw [selected_eq_valid_map]
      simp
    · rw [selected_eq_valid_map, List.map_map, List.map_map]
      apply List.map_congr_left
      intro idx _
      simp [process_item_id]
    · simp [summarize_selected_indices, hsel]

/-- The concrete session used by the curation witnesses: one candidate with
id 0. -/
def sW : Session := ⟨[], [⟨0, "A", "t0", "http://u0"⟩], []⟩

/-- The concrete text-extraction oracle used by the curation witnesses. -/
def ftW : String → String := fun _ => "some sufficiently long article text"

/-- The concrete summarization oracle used by the curation witnesses. -/
def llmW : String → String → Except String String := fun _ _ => .ok "S"

/-- Witness for C6: an all-invalid request fails and changes nothing, and a
request with one valid and one stale index produces exactly one summary. -/
theorem summarizeSelected_valid_ids_only_witness :
    summarize_selected_indices sW [5] "f" ftW llmW
      = (sW, "Invalid indices provided.")
    ∧ ∃ news : List SummaryRecord,
        (summarize_selected_indices sW [0, 1] "f" ftW llmW).1.summaries
            = sW.summaries ++ news
        ∧ news.length = (validIndices sW.raw_news [0, 1]).length
        ∧ news.map (fun r => r.id)
            = (validIndices sW.raw_news [0, 1]).map
                (fun idx => ((sW.raw_news.get? idx.toNat).getD default).id)
        ∧ (summarize_selected_indices sW [0, 1] "f" ftW llmW).2
            = jsonSummaries news :=
  ⟨(summarizeSelected_valid_ids_only sW [5] "f" ftW llmW).1 (by decide),
   (summarizeSelected_valid_ids_only sW [0, 1] "f" ftW llmW).2 (by decide)⟩

/-- C8: a curation call with at least one valid index appends its records
after the previously stored summaries, which survive unchanged as the
prefix of the collection, and leaves prices and candidates alone. -/
theorem summarizeSelected_appends (s : Session) (indices : List ℤ)
    (focus : String) (ft : String → String)
    (llm : String → String → Except String String)
    (h : validIndices s.raw_news indices ≠ []) :
    (summarize_selected_indices s indices focus ft llm).1.summaries.take
        s.summaries.length = s.summaries
    ∧ (summarize_selected_indices s indices focus ft llm).1.summaries.length
        = s.summaries.length + (validIndices s.raw_news indices).length
    ∧ (summarize_selected_indices s indices focus ft llm).1.prices = s.prices
    ∧ (summarize_selected_indices s indices focus ft llm).1.raw_news
        = s.raw_news := by
  have hsel : ¬ (indices.filterMap (pick s.raw_news)).isEmpty := by
    rw [selected_eq_valid_map]
    simpa [List.isEmpty_iff] using h
  have hlen : (indices.filterMap (pick s.raw_news)).length
      = (validIndices s.raw_news indices).length := by
    rw [selected_eq_valid_map]
    simp
  refine ⟨?_, ?_, ?_, ?_⟩
  · simp [summarize_selected_indices, hsel, List.take_left]
  · simp [summarize_selected_indices, hsel, hlen]
  · simp [summarize_selected_indices, hsel]
  · simp [summarize_selected_indices, hsel]

/-- Witness for C8 at a concrete curation call. -/
theorem summarizeSelected_appends_witness :
    validIndices sW.raw_news [0, 1] ≠ []
    ∧ (summarize_selected_indices sW [0, 1] "f" ftW llmW).1.summaries.take
        sW.summaries.length = sW.summaries :=
  ⟨by decide,
   (summarizeSelected_appends sW [0, 1] "f" ftW llmW (by decide)).1⟩

/-- Selecting through a request list: the records whose id is the target
candidate's id are in bijection with the occurrences of the target index,
provided no other stored candidate carries that id. -/
theorem count_selected (l : List NewsCandidate) (idx : ℤ) (c : NewsCandidate)
    (hc : pick l idx = some c)
    (huniq : ∀ j : ℕ, j < l.length →
      ((l.get? j).getD default).id = c.id → (j : ℤ) = idx) :
    ∀ indices : List ℤ,
      ((indices.filterMap (pick l)).filter
        (fun x => decide (x.id = c.id))).length = indices.count idx := by
  intro indices
  induction indices with
  | nil => rfl
  | cons i rest ih =>
    rw [List.filterMap_cons]
    by_cases hi : i = idx
    · subst hi
      rw [hc]
      simp [List.count_cons, ih]
    · cases hp : pick l i with
      | none => simp [List.count_cons, hi, ih]
      | some c' =>
        have hne : c'.id ≠ c.id := by
          intro heq
          apply hi
          unfold pick at hp
          split at hp
          · rename_i hb
            have hj := huniq i.toNat (by omega) (by rw [hp]; exact heq)
            omega
          · exact absurd hp (by simp)
        simp [List.count_cons, hi, hne, ih]

/-- C10: when a valid index occurs k > 1 times in a curation request (and
its candidate's id is unique in the candidate list), exactly k summary
records with that id are appended, and a subsequent removal naming that id
deletes all of them at once while keeping every record with a different
id. -/
theorem summarizeSelected_duplicate_ids (s : Session) (indices : List ℤ)
    (idx : ℤ) (c : NewsCandidate) (focus : String) (ft : String → String)
    (llm : String → String → Except String String)
    (hc : pick s.raw_news idx = some c)
    (hk : 1 < indices.count idx)
    (huniq : ∀ j : ℕ, j < s.raw_news.length →
      ((s.raw_news.get? j).getD default).id = c.id → (j : ℤ) = idx) :
    (((summarize_selected_indices s indices focus ft llm).1.summaries.drop
        s.summaries.length).filter
          (fun r => decide (r.id = c.id))).length = indices.count idx
    ∧ (∀ r ∈ (remove_news_summaries
          (summarize_selected_indices s indices focus ft llm).1
          [c.id]).1.summaries, r.id ≠ c.id)
    ∧ (∀ r ∈ (summarize_selected_indices s indices focus ft llm).1.summaries,
        r.id ≠ c.id →
        r ∈ (remove_news_summaries
          (summarize_selected_indices s indices focus ft llm).1
          [c.id]).1.summaries) := by
  have hcount := count_selected s.raw_news idx c hc huniq indices
  have hsel : ¬ (indices.filterMap (pick s.raw_news)).isEmpty := by
    intro hempty
    have hnil : indices.filterMap (pick s.raw_news) = [] := by
      simpa [List.isEmpty_iff] using hempty
    rw [hnil] at hcount
    simp at hcount
    omega
  have hdrop : (summarize_selected_indices s indices focus ft llm).1.summaries
      = s.summaries ++ (indices.filterMap (pick s.raw_news)).map
          (process_item ft llm focus) := by
    simp [summarize_selected_indices, hsel]
  refine ⟨?_, ?_, ?_⟩
  · rw [hdrop, List.drop_left]
    rw [List.filter_map]
    rw [List.length_map]
    rw [← hcount]
    congr 1
    apply List.filter_congr
    intro x _
    simp [Function.comp, process_item_id]
  · intro r hr
    have : (remove_news_summaries
        (summarize_selected_indices s indices focus ft llm).1
        [c.id]).1.summaries
      = ((summarize_selected_indices s indices focus ft llm).1.summaries).filter
          (fun item => decide (item.id ∉ ([c.id] : List ℤ))) := by
      simp [remove_news_summaries]
    rw [this] at hr
    have := (List.mem_filter.1 hr).2
    simpa using this
  · intro r hr hne
    have heq : (remove_news_summaries
        (summarize_selected_indices s indices focus ft llm).1
        [c.id]).1.summaries
      = ((summarize_selected_indices s indices focus ft llm).1.summaries).filter
          (fun item => decide (item.id ∉ ([c.id] : List ℤ))) := by
      simp [remove_news_summaries]
    rw [heq]
    exact List.mem_filter.2 ⟨hr, by simpa using hne⟩

/-- The concrete session used by the C10 witness: two candidates with ids
0 and 1. -/
def sW10 : Session :=
  ⟨[], [⟨0, "A", "t0", "http://u0"⟩, ⟨1, "B", "t1", "http://u1"⟩], []⟩

/-- Witness for C10: requesting index 1 twice appends two records with
id 1, and removing id 1 afterwards deletes both. -/
theorem summarizeSelected_duplicate_ids_witness :
    (((summarize_selected_indices sW10 [1, 1] "f" ftW llmW).1.summaries.drop
        sW10.summaries.length).filter
          (fun r => decide (r.id = (1 : ℤ)))).length
      = ([1, 1] : List ℤ).count 1
    ∧ (∀ r ∈ (remove_news_summaries
          (summarize_selected_indices sW10 [1, 1] "f" ftW llmW).1
          [(1 : ℤ)]).1.summaries, r.id ≠ (1 : ℤ))
    ∧ (∀ r ∈ (summarize_selected_indices sW10 [1, 1] "f" ftW llmW).1.summaries,
        r.id ≠ (1 : ℤ) →
        r ∈ (remove_news_summaries
          (summarize_selected_indices sW10 [1, 1] "f" ftW llmW).1
          [(1 : ℤ)]).1.summaries) :=
  summarizeSelected_duplicate_ids sW10 [1, 1] 1 ⟨1, "B", "t1", "http://u1"⟩
    "f" ftW llmW (by decide) (by decide) (by decide)

/-- C3: `removeSummaries([])` is a pure read: the session is returned
unchanged and the reply is exactly the ids of the stored summaries in
stored order. -/
theorem removeSummaries_empty_is_pure_read (s : Session) :
    remove_news_summaries s [] =
      (s, jsonIntList (s.summaries.map (fun item => item.id))) := by
  simp [remove_news_summaries]

/-- C4: with a non-empty id list, `removeSummaries` keeps exactly the stored
summaries whose id is not in the list (a sublist, so original order is
preserved), silently ignores unmatched ids (if nothing matches, the call is
an identity), and returns the ids of the summaries still present. -/
theorem removeSummaries_filters_by_id (s : Session) (indices : List ℤ)
    (h : indices ≠ []) :
    (remove_news_summaries s indices).1.summaries
        = s.summaries.filter (fun r => decide (r.id ∉ indices))
    ∧ List.Sublist (remove_news_summaries s indices).1.summaries s.summaries
    ∧ (∀ r, r ∈ (remove_news_summaries s indices).1.summaries ↔
        r ∈ s.summaries ∧ r.id ∉ indices)
    ∧ (remove_news_summaries s indices).2
        = jsonIntList ((remove_news_summaries s indices).1.summaries.map
            (fun item => item.id))
    ∧ ((∀ r ∈ s.summaries, r.id ∉ indices) →
        (remove_news_summaries s indices).1 = s) := by
  have hne : ¬ indices.isEmpty := by
    simpa [List.isEmpty_iff] using h
  refine ⟨?_, ?_, ?_, ?_, ?_⟩
  · simp [remove_news_summaries, hne]
  · simp only [remove_news_summaries, hne, if_neg, Bool.false_eq_true,
      not_false_iff]
    exact List.filter_sublist _
  · intro r
    simp [remove_news_summaries, hne]
  · simp [remove_news_summaries, hne]
  · intro hall
    have heq : s.summaries.filter (fun item => !decide (item.id ∈ indices))
        = s.summaries := by
      rw [List.filter_eq_self]
      intro a ha
      simpa using hall a ha
    simp [remove_news_summaries, hne, heq]

/-- Witness for C4 at a concrete session and id list. -/
theorem removeSummaries_filters_by_id_witness :
    (remove_news_summaries
        ⟨[], [], [⟨0, "A", none, "s0"⟩, ⟨1, "B", none, "s1"⟩, ⟨2, "C", none, "s2"⟩]⟩
        [1]).1.summaries
      = [⟨0, "A", none, "s0"⟩, ⟨2, "C", none, "s2"⟩].filter
          (fun r => decide (r.id ∉ ([1] : List ℤ))) ∨
    (remove_news_summaries
        ⟨[], [], [⟨0, "A", none, "s0"⟩, ⟨1, "B", none, "s1"⟩, ⟨2, "C", none, "s2"⟩]⟩
        [1]).1.summaries
      = [⟨0, "A", none, "s0"⟩, ⟨1, "B", none, "s1"⟩, ⟨2, "C", none, "s2"⟩].filter
          (fun r => decide (r.id ∉ ([1] : List ℤ))) :=
  Or.inr (removeSummaries_filters_by_id
    ⟨[], [], [⟨0, "A", none, "s0"⟩, ⟨1, "B", none, "s1"⟩, ⟨2, "C", none, "s2"⟩]⟩
    [1] (by decide)).1
